import Mathlib

/-!
# Verification of the kwartz dashboard front end

Shallow embedding of the content-classification pipeline, the CSV parser,
the JSON path extractor and interactive JSON renderer, the widget-config
modal logic, the widget content controller, and the debounced layout
persistence of the dashboard, together with proofs of the specified
properties.

JavaScript strings are modelled as Lean `String`s, with the string
operations the code uses (trim, split, startsWith, endsWith, toLowerCase,
parseInt, regular-expression tests) implemented explicitly on `List Char`
so that every step of the original code is visible.
-/

/-! ## JavaScript string primitives -/

/-- The whitespace class used by JavaScript `trim` and `parseInt`
(space, tab, LF, VT, FF, CR, NBSP, BOM). -/
def jsWhitespaceB (c : Char) : Bool :=
  decide (c.toNat = 32 ∨ c.toNat = 9 ∨ c.toNat = 10 ∨ c.toNat = 11 ∨
    c.toNat = 12 ∨ c.toNat = 13 ∨ c.toNat = 160 ∨ c.toNat = 65279)

/-- JavaScript `String.prototype.trim` on a character list. -/
def trimChars (l : List Char) : List Char :=
  ((l.dropWhile jsWhitespaceB).reverse.dropWhile jsWhitespaceB).reverse

/-- JavaScript `String.prototype.split` with a single-character separator:
always returns at least one piece, and empty pieces are kept. -/
def splitOnChar (sep : Char) : List Char → List (List Char)
  | [] => [[]]
  | c :: rest =>
    if c = sep then [] :: splitOnChar sep rest
    else
      match splitOnChar sep rest with
      | h :: t => (c :: h) :: t
      | [] => [[c]]

/-- JavaScript `String.prototype.startsWith` (first argument: the string,
second: the candidate prefix). -/
def startsWithL : List Char → List Char → Bool
  | _, [] => true
  | [], _ :: _ => false
  | a :: xs, b :: ys => a == b && startsWithL xs ys

/-- JavaScript `String.prototype.endsWith`. -/
def endsWithL (s p : List Char) : Bool :=
  startsWithL s.reverse p.reverse

/-- Number of occurrences of a character, as `(line.match(/c/g) || []).length`. -/
def countChar (c : Char) (l : List Char) : Nat :=
  (l.filter (fun x => x == c)).length

/-- JavaScript `String.prototype.toLowerCase` (ASCII range, which is all
the code compares against). -/
def lowerList (l : List Char) : List Char :=
  l.map Char.toLower

/-- `url.split('?')[0]`: everything before the first `?`. -/
def stripQuery (l : List Char) : List Char :=
  l.takeWhile (fun c => !(c == '?'))

/-- Decimal digit test, `[0-9]` / `\d`. -/
def isDigitB (c : Char) : Bool :=
  decide (48 ≤ c.toNat ∧ c.toNat ≤ 57)

/-- ASCII letter test for the case-insensitive `[a-z]` class. -/
def isAsciiLetterB (c : Char) : Bool :=
  decide ((65 ≤ c.toNat ∧ c.toNat ≤ 90) ∨ (97 ≤ c.toNat ∧ c.toNat ≤ 122))

def containsCharL (c : Char) : List Char → Bool
  | [] => false
  | x :: xs => x == c || containsCharL c xs

/-! ## ContentClassifier (`detectContentType` in HtmlWidget.tsx) -/

inductive ContentType where
  | html
  | markdown
  | csv
  | image
  | unknown
  deriving DecidableEq, Repr

/-- `IMAGE_EXTENSIONS` from HtmlWidget.tsx. -/
def IMAGE_EXTENSIONS : List String :=
  [".png", ".jpg", ".jpeg", ".gif", ".webp", ".svg", ".bmp", ".ico"]

/-- `isImageUrl`: lowercase, drop the query string, compare the suffix
against the known image extensions. -/
def isImageUrl (url : String) : Bool :=
  IMAGE_EXTENSIONS.any (fun ext => endsWithL (stripQuery (lowerList url.data)) ext.data)

/-- The source-URL extension rules of `detectContentType` (its leading
`if (url) { ... }` block): `some kind` when one of the extension rules
fires, `none` when control falls through to the structural heuristics.
A `none`/empty url is falsy in JavaScript, so no rule fires for it. -/
def urlRule (url : Option String) : Option ContentType :=
  match url with
  | none => none
  | some u =>
    if u = "" then none
    else
      let lowerUrl := stripQuery (lowerList u.data)
      if IMAGE_EXTENSIONS.any (fun ext => endsWithL lowerUrl ext.data) then some .image
      else if endsWithL lowerUrl ".md".data || endsWithL lowerUrl ".markdown".data then
        some .markdown
      else if endsWithL lowerUrl ".csv".data then some .csv
      else if endsWithL lowerUrl ".html".data || endsWithL lowerUrl ".htm".data then some .html
      else none

/-- The doctype / leading-html-tag rule on the trimmed content. -/
def looksHtmlStart (t : List Char) : Bool :=
  startsWithL t "<!DOCTYPE".data || startsWithL t "<!doctype".data ||
  startsWithL t "<html".data || startsWithL t "<HTML".data

/-- The CSV heuristic: take the first five lines of the trimmed content;
if there are at least two of them and they all have the same strictly
positive comma count, the content is CSV. -/
def csvHeuristic (t : List Char) : Bool :=
  let lines := (splitOnChar '\n' t).take 5
  let commasPerLine := lines.map (countChar ',')
  decide (2 ≤ lines.length) &&
    commasPerLine.all (fun c => c == commasPerLine.headD 0 && decide (0 < c)) &&
    decide (1 ≤ commasPerLine.headD 0)

/-- `/^\*\*.*\*\*/` after the opening `**`: scan for a second `**` without
crossing a newline (`.` does not match line terminators). -/
def starsClose : List Char → Bool
  | '*' :: '*' :: _ => true
  | c :: rest => !(c == '\n') && starsClose rest
  | [] => false

/-- `/^\*\*.*\*\*/.test(trimmed)`. -/
def mdBoldStart (t : List Char) : Bool :=
  startsWithL t ['*', '*'] && starsClose (t.drop 2)

/-- `/^[-*+] /.test(trimmed)`. -/
def mdListStart (t : List Char) : Bool :=
  match t with
  | c :: ' ' :: _ => c == '-' || c == '*' || c == '+'
  | _ => false

/-- `/^\d+\. /.test(trimmed)`. -/
def mdOrderedStart (t : List Char) : Bool :=
  let ds := t.takeWhile isDigitB
  !ds.isEmpty && startsWithL (t.drop ds.length) ". ".data

/-- After `](`, scan for `)` on the same line: the `.*` inside `\(.*\)`
cannot cross a newline. -/
def closeParenScan : List Char → Bool
  | [] => false
  | c :: rest => c == ')' || (!(c == '\n') && closeParenScan rest)

/-- After `[`, scan (without crossing a newline) for `](` followed by a
same-line `)`, i.e. the `.*\]\(.*\)` part of the link pattern. -/
def afterBracketScan : List Char → Bool
  | [] => false
  | c :: rest =>
    (c == ']' &&
      (match rest with
       | '(' :: r2 => closeParenScan r2
       | _ => false)) ||
    (!(c == '\n') && afterBracketScan rest)

/-- `/\[.*\]\(.*\)/.test(trimmed)` (unanchored link pattern). -/
def mdLink : List Char → Bool
  | [] => false
  | c :: rest => (c == '[' && afterBracketScan rest) || mdLink rest

/-- The three-backquote fence opener. -/
def codeFence : List Char :=
  [Char.ofNat 96, Char.ofNat 96, Char.ofNat 96]

/-- The markdown structural heuristics of `detectContentType`, in source
order. -/
def mdHeuristic (t : List Char) : Bool :=
  startsWithL t ['#'] || mdBoldStart t || mdListStart t || mdOrderedStart t ||
  mdLink t || startsWithL t codeFence || startsWithL t ['>']

/-- `/<[a-z][\s\S]*>/i.test(trimmed)`: a `<`, a letter, then a `>`
anywhere later (the `[\s\S]*` may cross newlines). -/
def htmlTagLike : List Char → Bool
  | '<' :: a :: rest => (isAsciiLetterB a && containsCharL '>' rest) || htmlTagLike (a :: rest)
  | _ :: rest => htmlTagLike rest
  | [] => false

/-- The structural part of `detectContentType` (everything after the URL
rules), applied to the raw content string. -/
def detectFromContent (content : String) : ContentType :=
  let trimmed := trimChars content.data
  if looksHtmlStart trimmed then .html
  else if csvHeuristic trimmed then .csv
  else if mdHeuristic trimmed then .markdown
  else if htmlTagLike trimmed then .html
  else .markdown

/-- `detectContentType(content, url?)` from HtmlWidget.tsx. -/
def detectContentType (content : String) (url : Option String) : ContentType :=
  match urlRule url with
  | some k => k
  | none => detectFromContent content

/-! ## CsvParser (`parseCSV` in HtmlWidget.tsx) -/

/-- One iteration structure of the `parseCSV` inner loop: characters of
the current line, the accumulated current field, and the `inQuotes` flag.
A doubled quote inside quotes appends a literal quote and skips a
character; any other quote toggles the flag; a comma outside quotes ends
the field; fields are trimmed when pushed. -/
def parseCSVLine : List Char → List Char → Bool → List String
  | [], cur, _ => [String.mk (trimChars cur)]
  | '"' :: '"' :: rest, cur, true => parseCSVLine rest (cur ++ ['"']) true
  | '"' :: rest, cur, inQuotes => parseCSVLine rest cur (!inQuotes)
  | ',' :: rest, cur, false => String.mk (trimChars cur) :: parseCSVLine rest [] false
  | c :: rest, cur, inQuotes => parseCSVLine rest (cur ++ [c]) inQuotes

/-- `parseCSV` from HtmlWidget.tsx: trim the content, split it on
newlines, and parse each line independently. -/
def parseCSV (content : String) : List (List String) :=
  (splitOnChar '\n' (trimChars content.data)).map (fun line => parseCSVLine line [] false)

/-! ## JSON values and `parseInt` -/

/-- JSON values as decoded by `JSON.parse`: objects are ordered field
lists, arrays ordered element lists. -/
inductive Json where
  | null
  | bool (b : Bool)
  | num (n : Int)
  | str (s : String)
  | arr (xs : List Json)
  | obj (fields : List (String × Json))

/-- JavaScript truthiness of a JSON value (`if (testData)`,
`if (result && ...)`). -/
def jsTruthy : Json → Bool
  | .null => false
  | .bool b => b
  | .num n => !(n == 0)
  | .str s => !(s == "")
  | .arr _ => true
  | .obj _ => true

/-- The decimal-digit prefix value used by `parseInt`: `none` when there
is no digit, otherwise the value of the longest digit prefix. -/
def digitsVal (l : List Char) : Option Nat :=
  let ds := l.takeWhile isDigitB
  if ds.isEmpty then none
  else some (ds.foldl (fun a c => a * 10 + (c.toNat - 48)) 0)

/-- JavaScript `parseInt(s, 10)`: skip leading whitespace, an optional
sign, then the longest digit prefix; `none` models `NaN`. -/
def jsParseInt (l : List Char) : Option Int :=
  match l.dropWhile jsWhitespaceB with
  | [] => none
  | c :: rest =>
    if c = '-' then (digitsVal rest).map (fun m => -(m : Int))
    else if c = '+' then (digitsVal rest).map (fun m => (m : Int))
    else (digitsVal (c :: rest)).map (fun m => (m : Int))

/-- JavaScript property lookup on a (non-array) object. -/
def jsonLookup (fields : List (String × Json)) (k : String) : Option Json :=
  (fields.find? (fun p => p.1 == k)).map (fun p => p.2)

/-- JavaScript `array[index]` for an integer index: `undefined` (`none`)
when out of range or negative. -/
def arrGetI (xs : List Json) (i : Int) : Option Json :=
  if i < 0 then none else xs.get? i.toNat

/-! ## PathValueExtractor (`extractValueFromPath` in WidgetConfigModal) -/

/-- The loop of `extractValueFromPath` over the split path segments.
`none` is JavaScript `undefined`. An array parses the segment with
`parseInt` and returns `''` if that fails; a non-array object looks the
segment up as a key; anything else (primitive, `null`, `undefined`)
before the segments are exhausted returns `''`; at the end only a string
result counts. -/
def extractGo : Option Json → List String → String
  | some (Json.str s), [] => s
  | _, [] => ""
  | some (Json.arr xs), k :: rest =>
    match jsParseInt k.data with
    | some i => extractGo (arrGetI xs i) rest
    | none => ""
  | some (Json.obj fields), k :: rest => extractGo (jsonLookup fields k) rest
  | _, _ :: _ => ""

/-- `path.split('.')` producing string segments. -/
def jsSplitDot (path : String) : List String :=
  (splitOnChar '.' path.data).map String.mk

/-- `extractValueFromPath(data, path)` from WidgetConfigModal. -/
def extractValueFromPath (data : Option Json) (path : String) : String :=
  extractGo data (jsSplitDot path)

/-! ## InteractiveJsonRenderer (`JsonViewer` in WidgetConfigModal) -/

def digitChar : Nat → Char
  | 0 => '0' | 1 => '1' | 2 => '2' | 3 => '3' | 4 => '4'
  | 5 => '5' | 6 => '6' | 7 => '7' | 8 => '8' | _ => '9'

/-- Decimal rendering of an array index, as JavaScript template
interpolation of a number renders it. -/
def natToDecL (n : Nat) : List Char :=
  if n < 10 then [digitChar n]
  else natToDecL (n / 10) ++ [digitChar (n % 10)]
decreasing_by exact Nat.div_lt_self (by omega) (by omega)

def natToDec (n : Nat) : String :=
  String.mk (natToDecL n)

/-- The path construction of `JsonViewer`: each child path is
`path ? path + '.' + seg : seg`, starting from the empty root path. -/
def renderDotPath (segs : List String) : String :=
  segs.foldl (fun p seg => if p = "" then seg else p ++ "." ++ seg) ""

/-- The key/index paths `JsonViewer` constructs while walking a JSON
value: `JsonViewerPath v segs u` holds when the renderer, started on `v`
with the empty root path, visits the sub-value `u` under the path with
segment list `segs` (object keys taken verbatim from `Object.entries`,
array indices rendered in decimal). -/
inductive JsonViewerPath : Json → List String → Json → Prop
  | nil (v : Json) : JsonViewerPath v [] v
  | objStep {fields : List (String × Json)} {k : String} {w u : Json} {segs : List String} :
      (k, w) ∈ fields → JsonViewerPath w segs u →
      JsonViewerPath (Json.obj fields) (k :: segs) u
  | arrStep {xs : List Json} {i : Nat} {w u : Json} {segs : List String} :
      xs.get? i = some w → JsonViewerPath w segs u →
      JsonViewerPath (Json.arr xs) (natToDec i :: segs) u

/-- The string a terminal JSON value extracts to: the string itself for a
string, the empty string for every other type. -/
def stringValueOf : Json → String
  | .str s => s
  | _ => ""

def keysDistinct : List String → Bool
  | [] => true
  | k :: ks => !(ks.contains k) && keysDistinct ks

mutual
/-- Well-formedness of a decoded JSON value: every object has pairwise
distinct keys, as `JSON.parse` guarantees (later duplicates overwrite
earlier ones before the value ever reaches the renderer). -/
def jsonWFb : Json → Bool
  | .null => true
  | .bool _ => true
  | .num _ => true
  | .str _ => true
  | .arr xs => jsonWFbArr xs
  | .obj fs => keysDistinct (fs.map Prod.fst) && jsonWFbFields fs

def jsonWFbArr : List Json → Bool
  | [] => true
  | x :: xs => jsonWFb x && jsonWFbArr xs

def jsonWFbFields : List (String × Json) → Bool
  | [] => true
  | (_, v) :: fs => jsonWFb v && jsonWFbFields fs
end

/-! ## WidgetConfigController (WidgetConfigModal) -/

/-- `url.startsWith('http://') || url.startsWith('https://')`. -/
def isHttpUrl (u : String) : Bool :=
  startsWithL u.data "http://".data || startsWithL u.data "https://".data

/-- The modal state touched by `handlePathClick`. -/
structure ModalState where
  responseUrlPath : String
  contentUrl : String
  testData : Option Json

/-- `handlePathClick(path)`: always set `responseUrlPath` to the clicked
path; when test data is present (and truthy), extract the path's value
and overwrite `contentUrl` with it only when it is a non-empty
`http(s)://` string. -/
def handlePathClick (st : ModalState) (path : String) : ModalState :=
  let st1 := { st with responseUrlPath := path }
  match st.testData with
  | some d =>
    if jsTruthy d then
      let url := extractValueFromPath (some d) path
      if !(url == "") && isHttpUrl url then { st1 with contentUrl := url }
      else st1
    else st1
  | none => st1

def jsonEscapeChar (c : Char) : List Char :=
  if c = '"' then ['\\', '"']
  else if c = '\\' then ['\\', '\\']
  else [c]

/-- `JSON.stringify` of a string value (the escapes that can arise from a
report-id input). -/
def jsonStringifyStr (s : String) : String :=
  "\"" ++ String.mk (s.data.map jsonEscapeChar).flatten ++ "\""

/-- `getRequestBody()`: empty when the trimmed report id is empty,
otherwise `JSON.stringify({ report_id: reportId.trim() })`. -/
def getRequestBody (reportId : String) : String :=
  let t := String.mk (trimChars reportId.data)
  if t = "" then ""
  else "\x7b\"report_id\":" ++ jsonStringifyStr t ++ "\x7d"

/-- The `WidgetUpdate` payload built by `handleSubmit` in edit mode;
`api_key = none` means the field is absent from the payload. -/
structure WidgetUpdateM where
  name : String
  api_endpoint : String
  api_key : Option String
  api_key_header : String
  request_body : String
  response_url_path : String
  content_url : String

/-- The `WidgetCreate` payload built by `handleSubmit` in create mode. -/
structure WidgetCreateM where
  name : String
  api_endpoint : String
  api_key : String
  api_key_header : String
  request_body : String
  response_url_path : String
  content_url : String

inductive SavePayload where
  | update (u : WidgetUpdateM)
  | create (c : WidgetCreateM)

/-- `handleSubmit`: in edit mode the payload starts without `api_key` and
`data.api_key = apiKey` is added only when `apiKey` is truthy (non-empty);
in create mode `api_key` is always sent. -/
def handleSubmit (isEditing : Bool) (name apiEndpoint apiKey apiKeyHeader reportId
    responseUrlPath contentUrl : String) : SavePayload :=
  if isEditing then
    .update
      { name := name
        api_endpoint := apiEndpoint
        api_key := if apiKey = "" then none else some apiKey
        api_key_header := apiKeyHeader
        request_body := getRequestBody reportId
        response_url_path := responseUrlPath
        content_url := contentUrl }
  else
    .create
      { name := name
        api_endpoint := apiEndpoint
        api_key := apiKey
        api_key_header := apiKeyHeader
        request_body := getRequestBody reportId
        response_url_path := responseUrlPath
        content_url := contentUrl }

/-- The `api_key` field of an update payload (`none` when the payload is
a create payload). -/
def updateApiKeyField : SavePayload → Option (Option String)
  | .update u => some u.api_key
  | .create _ => none

/-! ## WidgetContentController (`HtmlWidget` effect) -/

/-- The `/widgets/id/content` response body. -/
structure WidgetContentRes where
  content_url : Option String
  html_content : Option String
  error : Option String

/-- Truthiness of an optional string (`null`/`undefined` and `''` are
falsy). -/
def truthyS : Option String → Bool
  | none => false
  | some s => !(s == "")

/-- The widget state written by `loadContent`. -/
structure WState where
  content : Option String
  contentUrl : Option String
  contentType : ContentType
  error : Option String
  loading : Bool

/-- The writes at the top of `loadContent`: `setLoading(true)`,
`setError(null)`. -/
def startLoad (s : WState) : WState :=
  { s with loading := true, error := none }

/-- The state writes after a successful `fetchWidgetContent` resolution,
following the branch structure of the effect: backend error first, then
the direct-image branch, then textual content classified by
`detectContentType`, then the no-content error. -/
def applyFetchOk (r : WidgetContentRes) (s : WState) : WState :=
  if truthyS r.error then
    { s with error := r.error, content := none, contentUrl := none }
  else if truthyS r.content_url && isImageUrl ((r.content_url).getD "") then
    { s with contentUrl := r.content_url, contentType := .image,
             content := none, error := none }
  else if truthyS r.html_content then
    { s with content := r.html_content, contentUrl := r.content_url,
             contentType := detectContentType ((r.html_content).getD "")
               (if truthyS r.content_url then r.content_url else none),
             error := none }
  else
    { s with error := some "No content received", content := none, contentUrl := none }

/-- A fetch outcome: a resolved response or a thrown error message. -/
inductive FetchOutcome where
  | ok (r : WidgetContentRes)
  | exn (msg : String)

def applyOutcome : FetchOutcome → WState → WState
  | .ok r, s => applyFetchOk r s
  | .exn m, s => { s with error := some m, content := none, contentUrl := none }

/-- The resolution of one in-flight fetch whose effect-scope `cancelled`
flag has the given value: a cancelled fetch returns before every state
write (including the `finally` that clears `loading`). -/
def resolveWith (cancelled : Bool) (outcome : FetchOutcome) (s : WState) : WState :=
  if cancelled then s
  else { applyOutcome outcome s with loading := false }

/-! ## LayoutPersistenceController (`Dashboard` debounced save) -/

/-- A `react-grid-layout` layout item as received by `handleLayoutChange`. -/
structure LayoutItem where
  i : String
  x : Int
  y : Int
  w : Int
  h : Int
  minW : Option Int
  minH : Option Int
  deriving DecidableEq, Repr

/-- A persisted layout record. -/
structure LayoutRec where
  x : Int
  y : Int
  w : Int
  h : Int
  minW : Int
  minH : Int
  deriving DecidableEq, Repr

/-- The `layoutUpdates` payload `saveLayout` passes to
`bulkUpdateLayout`: one `(id, layout)` per item, defaulting `minW` and
`minH` to 2. -/
def layoutUpdates (layout : List LayoutItem) : List (String × LayoutRec) :=
  layout.map fun item =>
    (item.i, { x := item.x, y := item.y, w := item.w, h := item.h,
               minW := item.minW.getD 2, minH := item.minH.getD 2 })

/-- The debounce state of the dashboard: `pendingLayoutRef` and the
absolute due time of the timer behind `saveTimeoutRef`. -/
structure DebounceState where
  pending : Option (List LayoutItem)
  timerAt : Option Nat

def initDebounce : DebounceState :=
  { pending := none, timerAt := none }

/-- Runs a timestamped trace of `handleLayoutChange` events against the
debounce machinery and returns the `bulkUpdateLayout` payloads sent, in
order.  Before an event at time `t` is handled, a scheduled timer with
due time `≤ t` fires (saving the pending snapshot, as its callback does);
handling the event stores the snapshot as pending, cancels any remaining
timer and schedules a new one 500 ms out.  After the last event time
passes, so a still-scheduled timer fires. -/
def runTrace : DebounceState → List (Nat × List LayoutItem) → List (List (String × LayoutRec))
  | st, [] =>
    match st.timerAt, st.pending with
    | some _, some p => [layoutUpdates p]
    | _, _ => []
  | st, (t, snap) :: rest =>
    match st.timerAt with
    | some d =>
      if d ≤ t then
        (match st.pending with
         | some p => [layoutUpdates p]
         | none => []) ++ runTrace { pending := some snap, timerAt := some (t + 500) } rest
      else runTrace { pending := some snap, timerAt := some (t + 500) } rest
    | none => runTrace { pending := some snap, timerAt := some (t + 500) } rest

/-- The quiet-period grouping of an event trace: a new burst starts
exactly when an event follows its predecessor after 500 ms or more. -/
def bursts : List (Nat × List LayoutItem) → List (List (Nat × List LayoutItem))
  | [] => []
  | [e] => [[e]]
  | e1 :: e2 :: rest =>
    if e1.1 + 500 ≤ e2.1 then [e1] :: bursts (e2 :: rest)
    else
      match bursts (e2 :: rest) with
      | b :: bs => (e1 :: b) :: bs
      | [] => [[e1]]

/-- The snapshot of the last event of a burst. -/
def lastSnapOf (b : List (Nat × List LayoutItem)) : List LayoutItem :=
  (b.getLastD (0, [])).2

/-- Every gap between consecutive events is under 500 ms. -/
def gapsSmallB : List (Nat × List LayoutItem) → Bool
  | [] => true
  | [_] => true
  | e1 :: e2 :: rest => decide (e2.1 < e1.1 + 500) && gapsSmallB (e2 :: rest)

/-! ## Auxiliary definitions for the statements -/

/-- Result of running the `extractValueFromPath` loop over a prefix of
the segments: `cont r` is the loop still running with current value `r`
(`none` = `undefined`), `fail` is an early `return ''`. -/
inductive WalkRes where
  | cont (r : Option Json)
  | fail

/-- The value evolution of the `extractValueFromPath` loop over a prefix
of the split path. -/
def walkSegs : Option Json → List String → WalkRes
  | r, [] => .cont r
  | some (Json.arr xs), k :: rest =>
    match jsParseInt k.data with
    | some i => walkSegs (arrGetI xs i) rest
    | none => .fail
  | some (Json.obj fields), k :: rest => walkSegs (jsonLookup fields k) rest
  | _, _ :: _ => .fail

/-- A JSON value that is neither an array nor a non-array object. -/
def jsonPrimitive : Json → Bool
  | .arr _ => false
  | .obj _ => false
  | _ => true

/-- Modelled from the spec (claim C2), for comparison with the
implementation: every one of the up-to-first-5 non-empty lines of the
trimmed content has the same strictly positive comma count. -/
def specCsvCondition (content : String) : Prop :=
  let ls := ((splitOnChar '\n' (trimChars content.data)).filter (fun l => !l.isEmpty)).take 5
  ls ≠ [] ∧ ∃ c, 0 < c ∧ ∀ l ∈ ls, countChar ',' l = c

/-- Dot-joined concatenation of segment character lists. -/
def joinDotL : List (List Char) → List Char
  | [] => []
  | [x] => x
  | x :: xs => x ++ '.' :: joinDotL xs

/-- `('.' :: seg)` for every segment, flattened: the tail of a dot join. -/
def tailJoinL (xs : List (List Char)) : List Char :=
  (xs.map (fun x => '.' :: x)).flatten

/-- The payload of the spec's path-click example. -/
def examplePayload : Json :=
  Json.obj [("data", Json.obj [("url", Json.str "https://x/y.pdf")])]

/-- A payload with a numeric (non-URL) value. -/
def examplePayload42 : Json :=
  Json.obj [("n", Json.num 42)]

def exampleModal1 : ModalState :=
  { responseUrlPath := "url", contentUrl := "prev", testData := some examplePayload }

def exampleModal2 : ModalState :=
  { responseUrlPath := "url", contentUrl := "prev", testData := some examplePayload42 }

def demoItem : LayoutItem :=
  { i := "w1", x := 0, y := 0, w := 4, h := 3, minW := none, minH := none }

/-! ## General lemmas about the string primitives -/

theorem splitOnChar_ne_nil (sep : Char) (l : List Char) : splitOnChar sep l ≠ [] := by
  induction l with
  | nil => simp [splitOnChar]
  | cons c rest ih =>
    simp only [splitOnChar]
    split
    · simp
    · split
      · simp
      · simp

theorem mem_of_mem_dropWhile {p : Char → Bool} {a : Char} :
    ∀ {l : List Char}, a ∈ l.dropWhile p → a ∈ l := by
  intro l
  induction l with
  | nil => simp [List.dropWhile]
  | cons c rest ih =>
    intro h
    rw [List.dropWhile_cons] at h
    split at h
    · exact List.mem_cons_of_mem c (ih h)
    · exact h

theorem mem_of_mem_trimChars {a : Char} {l : List Char} (h : a ∈ trimChars l) : a ∈ l := by
  unfold trimChars at h
  rw [List.mem_reverse] at h
  have h2 := mem_of_mem_dropWhile h
  rw [List.mem_reverse] at h2
  exact mem_of_mem_dropWhile h2

theorem splitOnChar_mem_no_sep (sep : Char) :
    ∀ (l : List Char), ∀ piece ∈ splitOnChar sep l, sep ∉ piece := by
  intro l
  induction l with
  | nil =>
    intro piece hp
    simp [splitOnChar] at hp
    simp [hp]
  | cons c rest ih =>
    intro piece hp
    simp only [splitOnChar] at hp
    by_cases hc : c = sep
    · rw [if_pos hc] at hp
      rcases List.mem_cons.mp hp with rfl | hp2
      · simp
      · exact ih piece hp2
    · rw [if_neg hc] at hp
      cases hsplit : splitOnChar sep rest with
      | nil => exact absurd hsplit (splitOnChar_ne_nil sep rest)
      | cons h t =>
        rw [hsplit] at hp
        rcases List.mem_cons.mp hp with rfl | hp2
        · intro hmem
          rcases List.mem_cons.mp hmem with rfl | hmem2
          · exact hc rfl
          · exact ih h (hsplit ▸ List.mem_cons_self h t) hmem2
        · exact ih piece (hsplit ▸ List.mem_cons_of_mem h hp2)

/-! ## Claim C6: the two `parseCSV` examples -/

/-- Claim C6, counterexample: the quoted lone field `"a,""b,c"""` parses
to `a,"b,c"` (with a trailing literal quote), not to `a,"b,c` as the
claim states. -/
theorem parsecsv_quoted_field_cex :
    parseCSV "\"a,\"\"b,c\"\"\"" = [["a,\"b,c\""]] ∧
    ([["a,\"b,c\""]] : List (List String)) ≠ [["a,\"b,c"]] :=
  ⟨by decide, by decide⟩

/-- Claim C6 (amended): `parseCSV "a,b\n1,2"` is `[[a, b], [1, 2]]`, and
the single line consisting of the quoted field `"a,""b,c"""` parses to
the single field `a,"b,c"`: the comma inside the open quote is not a
separator, each doubled quote is an escaped literal quote, and the final
quote closes the field. -/
theorem parsecsv_examples_amended :
    parseCSV "a,b\n1,2" = [["a", "b"], ["1", "2"]] ∧
    parseCSV "\"a,\"\"b,c\"\"\"" = [["a,\"b,c\""]] :=
  ⟨by decide, by decide⟩

/-! ## Claim C2: the CSV heuristic of `detectContentType` -/

/-- Claim C2, counterexample: for the single-line content `a,b` no URL
rule and no doctype rule fires and every (one) of its non-empty lines has
the same strictly positive comma count, yet `detectContentType` returns
`markdown`, because the implementation samples the first five raw lines
(empty ones included) and demands at least two of them. -/
theorem csv_nonempty_lines_cex :
    urlRule none = none ∧
    looksHtmlStart (trimChars ("a,b" : String).data) = false ∧
    specCsvCondition "a,b" ∧
    detectContentType "a,b" none = ContentType.markdown :=
  ⟨rfl, by decide, ⟨by decide, 1, by decide, by decide⟩, by decide⟩

/-- Claim C2 (amended): if no source-URL extension rule and no
doctype/leading-html-tag rule fires, and the trimmed content splits on
newlines into at least two lines of which the first up-to-5 (empty lines
included) all have the same strictly positive comma count, then
`detectContentType` classifies the content as csv. -/
theorem csv_heuristic_classifies (content : String) (url : Option String)
    (hurl : urlRule url = none)
    (hdoc : looksHtmlStart (trimChars content.data) = false)
    (hlen : 2 ≤ ((splitOnChar '\n' (trimChars content.data)).take 5).length)
    (hcnt : ∃ c, 1 ≤ c ∧ ∀ l ∈ (splitOnChar '\n' (trimChars content.data)).take 5,
      countChar ',' l = c) :
    detectContentType content url = ContentType.csv := by
  obtain ⟨c, hc, hall⟩ := hcnt
  have hcsv : csvHeuristic (trimChars content.data) = true := by
    simp only [csvHeuristic, Bool.and_eq_true, decide_eq_true_eq, List.all_eq_true]
    obtain ⟨a, rest, ha⟩ : ∃ a rest, (splitOnChar '\n' (trimChars content.data)).take 5 = a :: rest := by
      cases h : (splitOnChar '\n' (trimChars content.data)).take 5 with
      | nil => rw [h] at hlen; simp at hlen
      | cons a r => exact ⟨a, r, rfl⟩
    have hhd : ((splitOnChar '\n' (trimChars content.data)).take 5).map (countChar ',') =
        (countChar ',' a) :: rest.map (countChar ',') := by
      rw [ha, List.map_cons]
    have hac : countChar ',' a = c := hall a (ha ▸ List.mem_cons_self a rest)
    refine ⟨⟨hlen, ?_⟩, ?_⟩
    · intro x hx
      obtain ⟨l, hl, rfl⟩ := List.mem_map.mp hx
      rw [hhd, List.headD_cons, hac]
      have : countChar ',' l = c := hall l hl
      rw [this]
      simp only [Bool.and_eq_true, beq_iff_eq, decide_eq_true_eq]
      exact ⟨trivial, hc⟩
    · rw [hhd, List.headD_cons, hac]
      exact hc
  unfold detectContentType
  rw [hurl]
  unfold detectFromContent
  simp only [hdoc, hcsv, Bool.false_eq_true, if_false, if_true]

/-- Witness for `csv_heuristic_classifies` at the content `a,b\n1,2`. -/
theorem csv_heuristic_classifies_witness :
    detectContentType "a,b\n1,2" none = ContentType.csv :=
  csv_heuristic_classifies "a,b\n1,2" none rfl (by decide) (by decide)
    ⟨1, by decide, by decide⟩

/-! ## Claim C7: image-extension URL precedence -/

/-- Claim C7: whatever the content is, a source URL whose lowercased
path (query string stripped) ends in a recognized image extension makes
`detectContentType` return `image`. -/
theorem image_extension_precedence (content : String) (u : String)
    (h : IMAGE_EXTENSIONS.any
      (fun ext => endsWithL (stripQuery (lowerList u.data)) ext.data) = true) :
    detectContentType content (some u) = ContentType.image := by
  have hne : ¬(u = "") := by
    rintro rfl
    exact absurd h (by decide)
  have hrule : urlRule (some u) = some ContentType.image := by
    simp [urlRule, hne, h]
  unfold detectContentType
  rw [hrule]

/-- Witness for `image_extension_precedence`: content that the
structural heuristics alone classify as markdown is classified as image
under the URL `foo.png?x=1`. -/
theorem image_extension_precedence_witness :
    detectContentType "# Hi" (some "foo.png?x=1") = ContentType.image ∧
    detectContentType "# Hi" none = ContentType.markdown :=
  ⟨image_extension_precedence "# Hi" "foo.png?x=1" (by decide), by decide⟩

/-! ## Claim C9: blank secret key omitted from the edit payload -/

/-- Claim C9: an edit submission with a blank secret-key input produces a
`WidgetUpdate` payload without the `api_key` field; the field is present
(with the typed value) exactly when the input is non-empty. -/
theorem edit_blank_key_omitted :
    (∀ nm ep hdr rid rup curl,
      updateApiKeyField (handleSubmit true nm ep "" hdr rid rup curl) = some none) ∧
    (∀ nm ep key hdr rid rup curl, key ≠ "" →
      updateApiKeyField (handleSubmit true nm ep key hdr rid rup curl) = some (some key)) := by
  constructor
  · intro nm ep hdr rid rup curl
    simp [handleSubmit, updateApiKeyField]
  · intro nm ep key hdr rid rup curl hk
    simp [handleSubmit, updateApiKeyField, hk]

/-- Witness for `edit_blank_key_omitted` with the non-blank key
`kwz_1` (and, hypothesis-free, the blank case at concrete inputs). -/
theorem edit_blank_key_omitted_witness :
    updateApiKeyField (handleSubmit true "w" "http://e" "kwz_1" "X-API-Key" "r" "url" "") =
      some (some "kwz_1") :=
  edit_blank_key_omitted.2 "w" "http://e" "kwz_1" "X-API-Key" "r" "url" "" (by decide)

/-! ## Claim C4: a superseded fetch never overwrites the newer result -/

/-- Claim C4: when a content fetch for a widget is superseded by a second
fetch before resolving (so the first effect's cleanup has set its
`cancelled` flag and the second effect has started loading), the final
widget state equals the state produced by the second fetch's resolution
alone, whichever of the two resolutions arrives first. -/
theorem stale_fetch_never_overwrites (s0 : WState) (r1 r2 : FetchOutcome) :
    resolveWith false r2 (resolveWith true r1 (startLoad (startLoad s0))) =
      resolveWith false r2 (startLoad (startLoad s0)) ∧
    resolveWith true r1 (resolveWith false r2 (startLoad (startLoad s0))) =
      resolveWith false r2 (startLoad (startLoad s0)) := by
  constructor <;> simp [resolveWith]

/-! ## Claim C5: path-click capture in the config modal -/

/-- A falsy JSON payload (and so one `handlePathClick` skips extraction
for) extracts to the empty string on every path, because it is not an
object. -/
theorem extract_falsy {d : Json} (hd : jsTruthy d = false) (p : String) :
    extractValueFromPath (some d) p = "" := by
  unfold extractValueFromPath jsSplitDot
  cases h : splitOnChar '.' p.data with
  | nil => exact absurd h (splitOnChar_ne_nil '.' p.data)
  | cons k rest =>
    rw [List.map_cons]
    cases d with
    | null => rfl
    | bool b =>
      cases b with
      | false => rfl
      | true => simp [jsTruthy] at hd
    | num n => rfl
    | str s => rfl
    | arr xs => simp [jsTruthy] at hd
    | obj fs => simp [jsTruthy] at hd

/-- `isHttpUrl` only holds for non-empty strings. -/
theorem isHttpUrl_ne_empty {u : String} (h : isHttpUrl u = true) : ¬(u = "") := by
  rintro rfl
  exact absurd h (by decide)

/-- Claim C5: a path activation always sets `responseUrlPath` to the
clicked path; when the stored payload extracts at the clicked path to an
`http(s)://` string, the captured `contentUrl` is overwritten with it,
and otherwise (including when no payload is stored) the previously
captured `contentUrl` is unchanged.  The last two conjuncts are the
spec's concrete examples: clicking `url` in
`{"data":{"url":"https://x/y.pdf"}}` and clicking a key whose value
is `42`. -/
theorem path_click_sets_path_and_captures :
    (∀ st path, (handlePathClick st path).responseUrlPath = path) ∧
    (∀ st path d, st.testData = some d →
      (isHttpUrl (extractValueFromPath (some d) path) = true →
        (handlePathClick st path).contentUrl = extractValueFromPath (some d) path) ∧
      (isHttpUrl (extractValueFromPath (some d) path) = false →
        (handlePathClick st path).contentUrl = st.contentUrl)) ∧
    (∀ st path, st.testData = none → (handlePathClick st path).contentUrl = st.contentUrl) ∧
    ((handlePathClick exampleModal1 "data.url").responseUrlPath = "data.url" ∧
      (handlePathClick exampleModal1 "data.url").contentUrl = "https://x/y.pdf") ∧
    ((handlePathClick exampleModal2 "n").responseUrlPath = "n" ∧
      (handlePathClick exampleModal2 "n").contentUrl = "prev") := by
  refine ⟨?_, ?_, ?_, by decide, by decide⟩
  · intro st path
    unfold handlePathClick
    cases st.testData with
    | none => rfl
    | some d =>
      by_cases hd : jsTruthy d <;> simp [hd]
      split <;> rfl
  · intro st path d hd
    constructor
    · intro hurl
      have hne := isHttpUrl_ne_empty hurl
      unfold handlePathClick
      rw [hd]
      have htr : jsTruthy d = true := by
        by_contra hfalse
        rw [Bool.not_eq_true] at hfalse
        rw [extract_falsy hfalse path] at hurl
        exact absurd hurl (by decide)
      simp only [htr, if_true]
      have hcond : (!(extractValueFromPath (some d) path == "") &&
          isHttpUrl (extractValueFromPath (some d) path)) = true := by
        simp only [Bool.and_eq_true, Bool.not_eq_true', beq_eq_false_iff_ne, ne_eq]
        exact ⟨hne, hurl⟩
      simp only [hcond, if_true]
    · intro hurl
      unfold handlePathClick
      rw [hd]
      by_cases htr : jsTruthy d
      · simp only [htr, if_true]
        have hcond : (!(extractValueFromPath (some d) path == "") &&
            isHttpUrl (extractValueFromPath (some d) path)) = false := by
          simp [hurl]
        simp only [hcond, Bool.false_eq_true, if_false]
      · rw [Bool.not_eq_true] at htr
        simp only [htr, Bool.false_eq_true, if_false]
  · intro st path hnone
    unfold handlePathClick
    rw [hnone]

/-- Witness for `path_click_sets_path_and_captures` at the spec's two
example payloads. -/
theorem path_click_sets_path_and_captures_witness :
    (handlePathClick exampleModal1 "data.url").contentUrl =
      extractValueFromPath (some examplePayload) "data.url" ∧
    (handlePathClick exampleModal2 "n").contentUrl = exampleModal2.contentUrl :=
  ⟨(path_click_sets_path_and_captures.2.1 exampleModal1 "data.url" examplePayload rfl).1
      (by decide),
   (path_click_sets_path_and_captures.2.1 exampleModal2 "n" examplePayload42 rfl).2
      (by decide)⟩

/-! ## Claim C10: `parseCSV` splits on newlines before quote handling -/

/-- Every character of every field `parseCSVLine` produces comes from the
line being parsed, from the accumulated current field, or is a literal
quote inserted for a `""` escape. -/
theorem parseCSVLine_chars (line cur : List Char) (inQ : Bool) :
    ∀ field ∈ parseCSVLine line cur inQ, ∀ a ∈ field.data,
      a ∈ line ∨ a ∈ cur ∨ a = '"' := by
  induction line, cur, inQ using parseCSVLine.induct with
  | case1 cur inQ =>
    intro field hf a ha
    simp only [parseCSVLine, List.mem_singleton] at hf
    subst hf
    right; left
    exact mem_of_mem_trimChars ha
  | case2 rest cur ih =>
    intro field hf a ha
    simp only [parseCSVLine] at hf
    rcases ih field hf a ha with h | h | h
    · exact Or.inl (List.mem_cons_of_mem _ (List.mem_cons_of_mem _ h))
    · rcases List.mem_append.mp h with h2 | h2
      · exact Or.inr (Or.inl h2)
      · right; right; simpa using h2
    · exact Or.inr (Or.inr h)
  | case3 rest cur inQ hside ih =>
    intro field hf a ha
    simp only [parseCSVLine] at hf
    rcases ih field hf a ha with h | h | h
    · exact Or.inl (List.mem_cons_of_mem _ h)
    · exact Or.inr (Or.inl h)
    · exact Or.inr (Or.inr h)
  | case4 rest cur ih =>
    intro field hf a ha
    simp only [parseCSVLine] at hf
    rcases List.mem_cons.mp hf with rfl | hf2
    · right; left
      exact mem_of_mem_trimChars ha
    · rcases ih field hf2 a ha with h | h | h
      · exact Or.inl (List.mem_cons_of_mem _ h)
      · simp at h
      · exact Or.inr (Or.inr h)
  | case5 c rest cur inQ h1 h2 h3 ih =>
    intro field hf a ha
    simp only [parseCSVLine] at hf
    rcases ih field hf a ha with h | h | h
    · exact Or.inl (List.mem_cons_of_mem _ h)
    · rcases List.mem_append.mp h with hc | hc
      · exact Or.inr (Or.inl hc)
      · simp at hc
        subst hc
        exact Or.inl (List.mem_cons_self _ _)
    · exact Or.inr (Or.inr h)

/-- Claim C10: `parseCSV` splits the trimmed text on newline characters
before any quote handling and returns exactly one row per resulting
line, and consequently no parsed field ever contains a newline. -/
theorem parsecsv_rows_no_newline :
    (∀ content : String,
      (parseCSV content).length = (splitOnChar '\n' (trimChars content.data)).length) ∧
    (∀ content : String, ∀ row ∈ parseCSV content, ∀ field ∈ row, '\n' ∉ field.data) := by
  constructor
  · intro content
    simp [parseCSV]
  · intro content row hrow field hfield hnl
    obtain ⟨line, hline, rfl⟩ := List.mem_map.mp hrow
    rcases parseCSVLine_chars line [] false field hfield '\n' hnl with h | h | h
    · exact splitOnChar_mem_no_sep '\n' _ line hline h
    · simp at h
    · exact absurd h (by decide)

/-- Witness for `parsecsv_rows_no_newline` on `a,b\n1,2`. -/
theorem parsecsv_rows_no_newline_witness :
    (parseCSV "a,b\n1,2").length =
      (splitOnChar '\n' (trimChars ("a,b\n1,2" : String).data)).length ∧
    '\n' ∉ ("a" : String).data :=
  ⟨parsecsv_rows_no_newline.1 "a,b\n1,2",
   parsecsv_rows_no_newline.2 "a,b\n1,2" ["a", "b"] (by decide) "a" (by decide)⟩

/-! ## Claim C8: soft failures of `extractValueFromPath` -/

/-- Once the loop value is `undefined`, the result is the empty string:
with segments left the truthy-object test fails, and at the end
`typeof undefined` is not `'string'`. -/
theorem extractGo_none (rest : List String) : extractGo none rest = "" := by
  cases rest <;> rfl

/-- Splitting the traversal: running `extractGo` over `a ++ b` first
walks `a`, and an early `return ''` inside `a` is final. -/
theorem extractGo_append (a : List String) :
    ∀ (r : Option Json) (b : List String),
      extractGo r (a ++ b) =
        match walkSegs r a with
        | .cont r' => extractGo r' b
        | .fail => "" := by
  induction a with
  | nil => intro r b; simp only [List.nil_append, walkSegs]
  | cons k rest ih =>
    intro r b
    match r with
    | none => rw [extractGo_none]; rfl
    | some Json.null => rfl
    | some (Json.bool v) => rfl
    | some (Json.num n) => rfl
    | some (Json.str s) => rfl
    | some (Json.arr xs) =>
      show extractGo (some (Json.arr xs)) (k :: (rest ++ b)) = _
      cases hp : jsParseInt k.data with
      | none => simp only [extractGo, walkSegs, hp]
      | some i => simp only [extractGo, walkSegs, hp]; exact ih _ _
    | some (Json.obj fields) =>
      show extractGo (some (Json.obj fields)) (k :: (rest ++ b)) = _
      simp only [extractGo, walkSegs]
      exact ih _ _

/-- Claim C8: wherever the traversal of `extractValueFromPath` reaches
(1) an array with a segment `parseInt` cannot parse, (2) an object
missing the segment key, (3) an array with an out-of-range or negative
parsed index, or (4) a primitive with segments still left, the whole
extraction returns the empty string. -/
theorem extract_soft_fail_cases :
    (∀ (v : Json) (p : String) (segs : List String) (k : String) (rest : List String)
        (xs : List Json),
      jsSplitDot p = segs ++ k :: rest →
      walkSegs (some v) segs = WalkRes.cont (some (Json.arr xs)) →
      jsParseInt k.data = none →
      extractValueFromPath (some v) p = "") ∧
    (∀ (v : Json) (p : String) (segs : List String) (k : String) (rest : List String)
        (fields : List (String × Json)),
      jsSplitDot p = segs ++ k :: rest →
      walkSegs (some v) segs = WalkRes.cont (some (Json.obj fields)) →
      jsonLookup fields k = none →
      extractValueFromPath (some v) p = "") ∧
    (∀ (v : Json) (p : String) (segs : List String) (k : String) (rest : List String)
        (xs : List Json) (i : Int),
      jsSplitDot p = segs ++ k :: rest →
      walkSegs (some v) segs = WalkRes.cont (some (Json.arr xs)) →
      jsParseInt k.data = some i →
      arrGetI xs i = none →
      extractValueFromPath (some v) p = "") ∧
    (∀ (v : Json) (p : String) (segs : List String) (k : String) (rest : List String)
        (w : Json),
      jsSplitDot p = segs ++ k :: rest →
      walkSegs (some v) segs = WalkRes.cont (some w) →
      jsonPrimitive w = true →
      extractValueFromPath (some v) p = "") := by
  refine ⟨?_, ?_, ?_, ?_⟩
  · intro v p segs k rest xs hsplit hwalk hparse
    unfold extractValueFromPath
    rw [hsplit, extractGo_append, hwalk]
    simp only [extractGo, hparse]
  · intro v p segs k rest fields hsplit hwalk hlook
    unfold extractValueFromPath
    rw [hsplit, extractGo_append, hwalk]
    simp only [extractGo, hlook]
    exact extractGo_none rest
  · intro v p segs k rest xs i hsplit hwalk hparse hrange
    unfold extractValueFromPath
    rw [hsplit, extractGo_append, hwalk]
    simp only [extractGo, hparse, hrange]
    exact extractGo_none rest
  · intro v p segs k rest w hsplit hwalk hprim
    unfold extractValueFromPath
    rw [hsplit, extractGo_append, hwalk]
    cases w with
    | null => rfl
    | bool v => rfl
    | num n => rfl
    | str s => rfl
    | arr xs => simp [jsonPrimitive] at hprim
    | obj fields => simp [jsonPrimitive] at hprim

/-- Witness for `extract_soft_fail_cases`: all four failure shapes at
concrete values. -/
theorem extract_soft_fail_cases_witness :
    extractValueFromPath (some (Json.arr [Json.str "s"])) "x" = "" ∧
    extractValueFromPath (some (Json.obj [("a", Json.str "s")])) "b" = "" ∧
    extractValueFromPath (some (Json.arr [Json.str "s"])) "5" = "" ∧
    extractValueFromPath (some (Json.obj [("a", Json.str "s")])) "a.b" = "" :=
  ⟨extract_soft_fail_cases.1 (Json.arr [Json.str "s"]) "x" [] "x" [] [Json.str "s"]
      (by decide) rfl (by decide),
   extract_soft_fail_cases.2.1 (Json.obj [("a", Json.str "s")]) "b" [] "b" []
      [("a", Json.str "s")] (by decide) rfl rfl,
   extract_soft_fail_cases.2.2.1 (Json.arr [Json.str "s"]) "5" [] "5" [] [Json.str "s"] 5
      (by decide) rfl (by decide) rfl,
   extract_soft_fail_cases.2.2.2 (Json.obj [("a", Json.str "s")]) "a.b" ["a"] "b" []
      (Json.str "s") (by decide) rfl rfl⟩

/-! ## Claim C3: debounced layout persistence -/

/-- A burst decomposition always starts with the first event. -/
theorem bursts_cons_head (rest : List (Nat × List LayoutItem)) :
    ∀ e : Nat × List LayoutItem, ∃ b bs, bursts (e :: rest) = (e :: b) :: bs := by
  induction rest with
  | nil => intro e; exact ⟨[], [], rfl⟩
  | cons e2 r ih =>
    intro e
    by_cases h : e.1 + 500 ≤ e2.1
    · exact ⟨[], bursts (e2 :: r), by simp [bursts, h]⟩
    · obtain ⟨b, bs, hb⟩ := ih e2
      exact ⟨e2 :: b, bs, by simp [bursts, h, hb]⟩

/-- The last snapshot of a list of two or more events ignores the head. -/
theorem lastSnapOf_cons (x y : Nat × List LayoutItem) (l : List (Nat × List LayoutItem)) :
    lastSnapOf (x :: y :: l) = lastSnapOf (y :: l) := by
  simp [lastSnapOf, List.getLastD_cons]

/-- After an event at time `t` with snapshot `snap`, running the rest of
the trace emits exactly one `bulkUpdateLayout` payload per burst of the
trace from that event on, each carrying the burst's last snapshot. -/
theorem runTrace_burst (rest : List (Nat × List LayoutItem)) :
    ∀ (t : Nat) (snap : List LayoutItem),
      runTrace { pending := some snap, timerAt := some (t + 500) } rest =
        (bursts ((t, snap) :: rest)).map (fun b => layoutUpdates (lastSnapOf b)) := by
  induction rest with
  | nil => intro t snap; rfl
  | cons e2 r ih =>
    intro t snap
    obtain ⟨t2, s2⟩ := e2
    by_cases h : t + 500 ≤ t2
    · have lhs : runTrace { pending := some snap, timerAt := some (t + 500) } ((t2, s2) :: r) =
          layoutUpdates snap ::
            runTrace { pending := some s2, timerAt := some (t2 + 500) } r := by
        simp [runTrace, h]
      rw [lhs, ih t2 s2]
      have hb : bursts ((t, snap) :: (t2, s2) :: r) =
          [(t, snap)] :: bursts ((t2, s2) :: r) := by
        simp [bursts, h]
      rw [hb, List.map_cons]
      simp [lastSnapOf]
    · have lhs : runTrace { pending := some snap, timerAt := some (t + 500) } ((t2, s2) :: r) =
          runTrace { pending := some s2, timerAt := some (t2 + 500) } r := by
        simp [runTrace, h]
      rw [lhs, ih t2 s2]
      obtain ⟨b, bs, hb⟩ := bursts_cons_head r (t2, s2)
      have hb2 : bursts ((t, snap) :: (t2, s2) :: r) = ((t, snap) :: (t2, s2) :: b) :: bs := by
        simp [bursts, h, hb]
      rw [hb, hb2, List.map_cons, List.map_cons, lastSnapOf_cons]

/-- Claim C3: a trace of layout-change events produces exactly one
backend persistence call per quiet period (burst), each carrying only
the last snapshot of its burst; in particular a trace whose consecutive
gaps are all under 500 ms is a single burst and produces exactly one
call with the final snapshot. -/
theorem debounce_single_save_per_burst :
    (∀ trace : List (Nat × List LayoutItem),
      runTrace initDebounce trace =
        (bursts trace).map (fun b => layoutUpdates (lastSnapOf b))) ∧
    (∀ trace : List (Nat × List LayoutItem), trace ≠ [] → gapsSmallB trace = true →
      bursts trace = [trace]) := by
  constructor
  · intro trace
    cases trace with
    | nil => rfl
    | cons e rest =>
      obtain ⟨t, snap⟩ := e
      exact runTrace_burst rest t snap
  · intro trace
    induction trace with
    | nil => intro h; exact absurd rfl h
    | cons e rest ih =>
      intro _ hg
      cases rest with
      | nil => rfl
      | cons e2 r =>
        simp only [gapsSmallB, Bool.and_eq_true, decide_eq_true_eq] at hg
        obtain ⟨hlt, hg2⟩ := hg
        have h2 := ih (by simp) hg2
        have hnle : ¬(e.1 + 500 ≤ e2.1) := by omega
        simp [bursts, hnle, h2]

/-- Witness for `debounce_single_save_per_burst`: a two-event trace with
a 100 ms gap forms a single burst, and running it emits exactly the one
payload of the second snapshot. -/
theorem debounce_single_save_per_burst_witness :
    bursts [(0, []), (100, [demoItem])] = [[(0, []), (100, [demoItem])]] ∧
    runTrace initDebounce [(0, []), (100, [demoItem])] = [layoutUpdates [demoItem]] :=
  ⟨debounce_single_save_per_burst.2 [(0, []), (100, [demoItem])] (by decide) (by decide),
   (debounce_single_save_per_burst.1 [(0, []), (100, [demoItem])]).trans (by decide)⟩

/-! ## Claim C1: extraction inverts renderer path construction -/

theorem digitChar_toNat {d : Nat} (h : d < 10) : (digitChar d).toNat = 48 + d := by
  interval_cases d <;> decide

theorem digitChar_isDigit {d : Nat} (h : d < 10) : isDigitB (digitChar d) = true := by
  interval_cases d <;> decide

theorem natToDecL_digits : ∀ n : Nat, ∀ c ∈ natToDecL n, isDigitB c = true := by
  intro n
  induction n using Nat.strong_induction_on with
  | _ n ih =>
    intro c hc
    rw [natToDecL] at hc
    split at hc
    · next h =>
      rcases List.mem_singleton.mp hc with rfl
      exact digitChar_isDigit h
    · next h =>
      rcases List.mem_append.mp hc with h2 | h2
      · exact ih (n / 10) (Nat.div_lt_self (by omega) (by omega)) c h2
      · rcases List.mem_singleton.mp h2 with rfl
        exact digitChar_isDigit (Nat.mod_lt n (by omega))

theorem natToDecL_ne_nil (n : Nat) : natToDecL n ≠ [] := by
  rw [natToDecL]
  split <;> simp

theorem natToDecL_val : ∀ n : Nat,
    (natToDecL n).foldl (fun a c => a * 10 + (c.toNat - 48)) 0 = n := by
  intro n
  induction n using Nat.strong_induction_on with
  | _ n ih =>
    rw [natToDecL]
    split
    · next h =>
      simp only [List.foldl_cons, List.foldl_nil, digitChar_toNat h]
      omega
    · next h =>
      rw [List.foldl_append]
      rw [ih (n / 10) (Nat.div_lt_self (by omega) (by omega))]
      simp only [List.foldl_cons, List.foldl_nil, digitChar_toNat (Nat.mod_lt n (by omega))]
      omega

theorem digits_not_ws {c : Char} (h : isDigitB c = true) : jsWhitespaceB c = false := by
  simp only [isDigitB, decide_eq_true_eq] at h
  simp only [jsWhitespaceB, decide_eq_false_iff_not]
  omega

theorem dropWhile_ws_digits {l : List Char} (h : ∀ c ∈ l, isDigitB c = true) :
    l.dropWhile jsWhitespaceB = l := by
  cases l with
  | nil => rfl
  | cons c rest =>
    have hc := digits_not_ws (h c (List.mem_cons_self c rest))
    simp [List.dropWhile_cons, hc]

theorem takeWhile_digits {l : List Char} (h : ∀ c ∈ l, isDigitB c = true) :
    l.takeWhile isDigitB = l := by
  induction l with
  | nil => rfl
  | cons c rest ih =>
    rw [List.takeWhile_cons, if_pos (h c (List.mem_cons_self c rest))]
    rw [ih (fun x hx => h x (List.mem_cons_of_mem c hx))]

/-- `parseInt` inverts the renderer's decimal index rendering. -/
theorem jsParseInt_natToDec (i : Nat) : jsParseInt (natToDec i).data = some (i : Int) := by
  have hdig : ∀ c ∈ natToDecL i, isDigitB c = true := natToDecL_digits i
  show jsParseInt (natToDecL i) = some (i : Int)
  unfold jsParseInt
  rw [dropWhile_ws_digits hdig]
  cases hl : natToDecL i with
  | nil => exact absurd hl (natToDecL_ne_nil i)
  | cons c rest =>
    have hall : ∀ x ∈ c :: rest, isDigitB x = true := hl ▸ hdig
    have hc : isDigitB c = true := hall c (List.mem_cons_self c rest)
    have hcm : ¬(c = '-') := by rintro rfl; simp [isDigitB] at hc
    have hcp : ¬(c = '+') := by rintro rfl; simp [isDigitB] at hc
    show (if c = '-' then (digitsVal rest).map (fun m => -(m : Int))
      else if c = '+' then (digitsVal rest).map (fun m => (m : Int))
      else (digitsVal (c :: rest)).map (fun m => (m : Int))) = some (i : Int)
    rw [if_neg hcm, if_neg hcp]
    simp only [digitsVal, takeWhile_digits hall]
    have hval : (c :: rest).foldl (fun a x => a * 10 + (x.toNat - 48)) 0 = i := by
      rw [← hl]
      exact natToDecL_val i
    simp [hval]

/-- With pairwise distinct keys, JavaScript property lookup finds exactly
the entry `Object.entries` visits. -/
theorem jsonLookup_mem {fields : List (String × Json)} {k : String} {w : Json}
    (hdist : keysDistinct (fields.map Prod.fst) = true) (hmem : (k, w) ∈ fields) :
    jsonLookup fields k = some w := by
  induction fields with
  | nil => simp at hmem
  | cons p fs ih =>
    obtain ⟨k', v'⟩ := p
    simp only [List.map_cons, keysDistinct, Bool.and_eq_true, Bool.not_eq_true'] at hdist
    obtain ⟨hnc, hdist2⟩ := hdist
    rcases List.mem_cons.mp hmem with heq | hmem2
    · injection heq with h1 h2
      subst h1
      subst h2
      simp [jsonLookup, List.find?]
    · by_cases hk : k' = k
      · exfalso
        subst hk
        have hm : k' ∈ fs.map Prod.fst := List.mem_map.mpr ⟨(k', w), hmem2, rfl⟩
        rw [← List.elem_iff] at hm
        have hnc2 : List.elem k' (fs.map Prod.fst) = false := hnc
        rw [hm] at hnc2
        simp at hnc2
      · have hstep : jsonLookup ((k', v') :: fs) k = jsonLookup fs k := by
          have : (k' == k) = false := by
            simp only [beq_eq_false_iff_ne, ne_eq]
            exact hk
          simp [jsonLookup, List.find?, this]
        rw [hstep]
        exact ih hdist2 hmem2

theorem jsonWFbFields_mem {fs : List (String × Json)} {k : String} {w : Json}
    (hwf : jsonWFbFields fs = true) (hmem : (k, w) ∈ fs) : jsonWFb w = true := by
  induction fs with
  | nil => simp at hmem
  | cons p fs ih =>
    obtain ⟨k', v'⟩ := p
    simp only [jsonWFbFields, Bool.and_eq_true] at hwf
    rcases List.mem_cons.mp hmem with heq | hmem2
    · injection heq with h1 h2
      subst h2
      exact hwf.1
    · exact ih hwf.2 hmem2

theorem jsonWFbArr_mem {xs : List Json} {w : Json}
    (hwf : jsonWFbArr xs = true) (hmem : w ∈ xs) : jsonWFb w = true := by
  induction xs with
  | nil => simp at hmem
  | cons x xs ih =>
    simp only [jsonWFbArr, Bool.and_eq_true] at hwf
    rcases List.mem_cons.mp hmem with rfl | hm2
    · exact hwf.1
    · exact ih hwf.2 hm2

/-- Segment-list form of the inverse property: along any renderer path
through a well-formed value, the extraction loop reaches exactly the
visited sub-value and returns its string (or the empty string for a
non-string terminal). -/
theorem extract_viewer_list {v u : Json} {segs : List String}
    (hpath : JsonViewerPath v segs u) (hwf : jsonWFb v = true) :
    extractGo (some v) segs = stringValueOf u := by
  induction hpath with
  | nil w => cases w <;> rfl
  | @objStep fields k w u segs hmem hrest ih =>
    simp only [jsonWFb, Bool.and_eq_true] at hwf
    have hlook := jsonLookup_mem hwf.1 hmem
    show extractGo (some (Json.obj fields)) (k :: segs) = _
    simp only [extractGo, hlook]
    exact ih (jsonWFbFields_mem hwf.2 hmem)
  | @arrStep xs i w u segs hget hrest ih =>
    simp only [jsonWFb] at hwf
    show extractGo (some (Json.arr xs)) (natToDec i :: segs) = _
    simp only [extractGo, jsParseInt_natToDec i]
    have hgi : arrGetI xs (i : Int) = some w := by
      unfold arrGetI
      rw [if_neg (by omega), Int.toNat_ofNat]
      exact hget
    rw [hgi]
    exact ih (jsonWFbArr_mem hwf (List.get?_mem hget))

theorem stringMk_data (s : String) : String.mk s.data = s := rfl

theorem string_eq_empty_iff (s : String) : s = "" ↔ s.data = [] := by
  constructor
  · rintro rfl
    rfl
  · intro h
    cases s with
    | mk d =>
      simp only at h
      rw [h]

theorem joinDotL_cons (x : List Char) (xs : List (List Char)) :
    joinDotL (x :: xs) = x ++ tailJoinL xs := by
  induction xs generalizing x with
  | nil => simp [joinDotL, tailJoinL]
  | cons y ys ih =>
    rw [show joinDotL (x :: y :: ys) = x ++ '.' :: joinDotL (y :: ys) from rfl]
    rw [ih y]
    simp [tailJoinL]

theorem renderDotPath_foldl (segs : List String) :
    ∀ p : String, p ≠ "" →
      (segs.foldl (fun q seg => if q = "" then seg else q ++ "." ++ seg) p).data =
        p.data ++ tailJoinL (segs.map String.data) := by
  induction segs with
  | nil =>
    intro p hp
    simp [tailJoinL]
  | cons s rest ih =>
    intro p hp
    rw [List.foldl_cons, if_neg hp]
    have hne : ¬(p ++ "." ++ s = "") := by
      intro h
      have h2 := (string_eq_empty_iff _).mp h
      rw [String.data_append, String.data_append] at h2
      simp at h2
    rw [ih _ hne, String.data_append, String.data_append]
    simp [tailJoinL]

/-- For non-empty segments, the renderer's incremental path construction
produces the dot join of the segments. -/
theorem renderDotPath_data (segs : List String) (hne : segs ≠ [])
    (hseg : ∀ s ∈ segs, s ≠ "") :
    (renderDotPath segs).data = joinDotL (segs.map String.data) := by
  cases segs with
  | nil => exact absurd rfl hne
  | cons s rest =>
    unfold renderDotPath
    rw [List.foldl_cons, if_pos rfl]
    rw [renderDotPath_foldl rest s (hseg s (List.mem_cons_self s rest))]
    rw [List.map_cons, joinDotL_cons]

theorem splitOnChar_no_sep {sep : Char} {x : List Char} (h : sep ∉ x) :
    splitOnChar sep x = [x] := by
  induction x with
  | nil => rfl
  | cons c rest ih =>
    have hc : ¬(c = sep) := by
      intro hh
      exact h (by rw [← hh]; exact List.mem_cons_self c rest)
    simp only [splitOnChar, if_neg hc]
    rw [ih (fun hm => h (List.mem_cons_of_mem c hm))]

theorem splitOnChar_append_sep {sep : Char} {x : List Char} (h : sep ∉ x) (r : List Char) :
    splitOnChar sep (x ++ sep :: r) = x :: splitOnChar sep r := by
  induction x with
  | nil => simp [splitOnChar]
  | cons c rest ih =>
    have hc : ¬(c = sep) := by
      intro hh
      exact h (by rw [← hh]; exact List.mem_cons_self c rest)
    simp only [List.cons_append, splitOnChar, if_neg hc, List.append_eq]
    rw [ih (fun hm => h (List.mem_cons_of_mem c hm))]

/-- Splitting on `.` inverts the dot join of dot-free segments. -/
theorem splitOnChar_joinDotL :
    ∀ segs : List (List Char), segs ≠ [] → (∀ x ∈ segs, '.' ∉ x) →
      splitOnChar '.' (joinDotL segs) = segs := by
  intro segs
  induction segs with
  | nil =>
    intro h
    exact absurd rfl h
  | cons x xs ih =>
    intro _ hsegs
    cases xs with
    | nil =>
      rw [show joinDotL [x] = x from rfl]
      exact splitOnChar_no_sep (hsegs x (List.mem_cons_self x []))
    | cons y ys =>
      rw [show joinDotL (x :: y :: ys) = x ++ '.' :: joinDotL (y :: ys) from rfl]
      rw [splitOnChar_append_sep (hsegs x (List.mem_cons_self x (y :: ys)))]
      rw [ih (by simp) (fun z hz => hsegs z (List.mem_cons_of_mem x hz))]

/-- Claim C1, counterexample: the renderer constructs the path `a.b` for
the key `a.b` of `{"a.b": "x"}`, whose value is the string `x`, but
extraction of `a.b` splits it into two segments and returns the empty
string instead of `x`. -/
theorem renderer_dot_key_cex :
    JsonViewerPath (Json.obj [("a.b", Json.str "x")]) ["a.b"] (Json.str "x") ∧
    renderDotPath ["a.b"] = "a.b" ∧
    jsonWFb (Json.obj [("a.b", Json.str "x")]) = true ∧
    extractValueFromPath (some (Json.obj [("a.b", Json.str "x")])) "a.b" = "" ∧
    stringValueOf (Json.str "x") = "x" ∧
    ("" : String) ≠ "x" :=
  ⟨.objStep (List.mem_singleton.mpr rfl) (.nil (Json.str "x")),
   by decide, by decide, by decide, rfl, by decide⟩

/-- Claim C1 (amended): for every well-formed JSON value (distinct object
keys, as `JSON.parse` produces) and every non-empty renderer path all of
whose segments are non-empty and contain no `.`, `extractValueFromPath`
applied to the renderer's constructed dot-path resolves to exactly the
visited sub-value when it is a string, and to the empty string
otherwise. -/
theorem renderer_path_extract_inverse (v u : Json) (segs : List String)
    (hpath : JsonViewerPath v segs u) (hwf : jsonWFb v = true)
    (hne : segs ≠ []) (hsegs : ∀ s ∈ segs, s ≠ "" ∧ '.' ∉ s.data) :
    extractValueFromPath (some v) (renderDotPath segs) = stringValueOf u := by
  unfold extractValueFromPath jsSplitDot
  rw [renderDotPath_data segs hne (fun s hs => (hsegs s hs).1)]
  rw [splitOnChar_joinDotL (segs.map String.data)
      (by simpa using hne)
      (by intro x hx
          obtain ⟨s, hs, rfl⟩ := List.mem_map.mp hx
          exact (hsegs s hs).2)]
  have hmk : (segs.map String.data).map String.mk = segs := by
    rw [List.map_map]
    have hcomp : (String.mk ∘ String.data) = id := funext stringMk_data
    rw [hcomp, List.map_id]
  rw [hmk]
  exact extract_viewer_list hpath hwf

/-- Witness for `renderer_path_extract_inverse` on the path `data.url`
of the example payload. -/
theorem renderer_path_extract_inverse_witness :
    extractValueFromPath (some examplePayload) (renderDotPath ["data", "url"]) =
      stringValueOf (Json.str "https://x/y.pdf") :=
  renderer_path_extract_inverse examplePayload (Json.str "https://x/y.pdf") ["data", "url"]
    (.objStep (List.mem_singleton.mpr rfl)
      (.objStep (List.mem_singleton.mpr rfl) (.nil (Json.str "https://x/y.pdf"))))
    (by decide) (by decide) (by decide)
